import Mathlib

/-!
Shallow embedding of the secondary-index subsystem in `kv/index.go`.

Byte slices are modelled as `List Nat`, buckets as association lists of
key/value pairs, and the Go functions of `index.go` are translated one by
one.  Go's `(result, error)` returns become `Except Err`, closure-captured
mutation (the `diff` accumulated by `Verify`, the `missing` list collected
by `Populate`, the counter `n`) becomes explicit state threading, and the
reads a function performs (bucket opens, cursor steps, gets) are recorded
in an event trace so that "performs no reads" is a statement about the
model, not an interpretation of it.

The transactional store itself (`Store`, `Tx`, `Bucket`, `ForwardCursor`,
`ErrKeyNotFound`) is not part of the given sources; it is modelled from
the spec's interface section: `Get` fails with a key-not-found error when
the key is absent, `Put` overwrites, `Delete` of an absent key is not an
error, forward cursors iterate keys in ascending byte order optionally
restricted to a prefix, and `Update` commits the transaction's writes on
success and discards them on failure.
-/

namespace KVIndex

/-- A byte sequence (Go `[]byte`). -/
abbrev Bytes := List Nat

/-- The reserved separator byte `'/'` used by the composite-key encoding. -/
def sep : Nat := 47

/-- Errors surfaced by the index code and its collaborators.
`keyNotFound` is the store's `ErrKeyNotFound`; `notFoundWrapped pk fk` is
the error `fmt.Errorf("for key %v indexed by %v: %w", pk, fk, ErrKeyNotFound)`
built by `Walk`'s not-found callback; `malformedIndexKey` is the error of
`indexKeyParts`; `bucketNotFound` models `tx.Bucket` failing for a missing
collection; `derivation`, `visitFail`, `iterFail`, `closeFail` and
`commitFail` are injectable failures of the derivation function, a visit
callback, cursor iteration, cursor close and transaction commit. -/
inductive Err where
  | keyNotFound : Err
  | malformedIndexKey : Err
  | notFoundWrapped (pk fk : Bytes) : Err
  | bucketNotFound (name : Bytes) : Err
  | derivation (code : Nat) : Err
  | visitFail (code : Nat) : Err
  | iterFail (code : Nat) : Err
  | closeFail (code : Nat) : Err
  | commitFail (code : Nat) : Err
deriving DecidableEq, Repr

/-- Observable store accesses, recorded in a trace: opening a bucket,
advancing a cursor, a point lookup, closing a cursor, and invoking a
walk visitor. -/
inductive Ev where
  | openBucket (name : Bytes)
  | next
  | get (k : Bytes)
  | close
  | visit (k v : Bytes)
deriving DecidableEq, Repr

/-- Computation returning `α`, threading mutable state `σ` (Go's
closure-captured variables) and emitting a trace of store events.
A Go `return err` aborts the rest of the computation but the state
mutated so far is kept, exactly as Go named returns behave. -/
abbrev M (σ α : Type) := σ → Except Err α × σ × List Ev

instance monadM : Monad (M σ) where
  pure a := fun s => (.ok a, s, [])
  bind x f := fun s =>
    match x s with
    | (.error e, s1, ev) => (.error e, s1, ev)
    | (.ok a, s1, ev) =>
      match f a s1 with
      | (r, s2, ev2) => (r, s2, ev ++ ev2)

/-- Raise an error (Go `return err`). -/
def throwE (e : Err) : M σ α := fun s => (.error e, s, [])

/-- Record a store event. -/
def emit (e : Ev) : M σ Unit := fun s => (.ok (), s, [e])

/-- Mutate the closure-captured state. -/
def modifyS (f : σ → σ) : M σ Unit := fun s => (.ok (), f s, [])

/-! ### Composite keys (`indexKey`, `indexKeyParts`) -/

/-- `indexKey(foreignKey, primaryKey)`: the composite key
`foreignKey / primaryKey` (the Go function also returns a vestigial nil
error, dropped here because it is the constant `nil`). -/
def indexKey (foreignKey primaryKey : Bytes) : Bytes :=
  foreignKey ++ sep :: primaryKey

/-- `bytes.SplitN(b, "/", 2)`: split at the first separator byte, keeping
the remainder intact; `none` when no separator occurs (a single part). -/
def splitN2 : Bytes → Option (Bytes × Bytes)
  | [] => none
  | b :: rest =>
    if b = sep then some ([], rest)
    else
      match splitN2 rest with
      | none => none
      | some (l, r) => some (b :: l, r)

/-- `indexKeyParts`: recover `(fk, pk)` from a composite key, failing with
a malformed-index-key error when the key holds no separator. -/
def indexKeyParts (ik : Bytes) : Except Err (Bytes × Bytes) :=
  match splitN2 ik with
  | none => .error .malformedIndexKey
  | some (fk, pk) => .ok (fk, pk)

/-! ### Store model (buckets, transactions, cursors) -/

/-- Ascending byte order on keys (Go `bytes.Compare < 0`). -/
def bytesLt : Bytes → Bytes → Bool
  | [], [] => false
  | [], _ :: _ => true
  | _ :: _, [] => false
  | a :: as_, b :: bs => if a < b then true else if b < a then false else bytesLt as_ bs

/-- Modelled from the spec: a collection is a finite key/value map; it is
represented as an association list kept in ascending key order. -/
abbrev Bucket := List (Bytes × Bytes)

/-- Modelled from the spec: `Get(key)` returns the stored value or a
key-not-found outcome (`none`) when absent. -/
def bucketGet : Bucket → Bytes → Option Bytes
  | [], _ => none
  | (k, v) :: rest, key => if k = key then some v else bucketGet rest key

/-- Modelled from the spec: `Put(key, value)` overwrites an existing entry
for `key` or inserts a new one, keeping ascending key order. -/
def bucketPut : Bucket → Bytes → Bytes → Bucket
  | [], key, val => [(key, val)]
  | (k, v) :: rest, key, val =>
    if k = key then (key, val) :: rest
    else if bytesLt key k then (key, val) :: (k, v) :: rest
    else (k, v) :: bucketPut rest key val

/-- Modelled from the spec: `Delete(key)` removes the entry for `key`;
deleting an absent key is not an error and leaves the bucket unchanged. -/
def bucketDel : Bucket → Bytes → Bucket
  | [], _ => []
  | (k, v) :: rest, key => if k = key then rest else (k, v) :: bucketDel rest key

/-- Modelled from the spec: a forward cursor yields its rows in ascending
key order; `iterErr` is what `Err()` reports after exhaustion and
`closeErr` is what `Close()` returns, both nil for cursors opened on a
healthy bucket. -/
structure Cursor where
  rows : List (Bytes × Bytes)
  iterErr : Option Err := none
  closeErr : Option Err := none

/-- Modelled from the spec: `ForwardCursor(nil)` over a whole bucket. -/
def forwardCursorAll (b : Bucket) : Cursor := ⟨b, none, none⟩

/-- Modelled from the spec: `ForwardCursor(seek, WithCursorPrefix(pfx))`
with `seek = pfx`: the rows whose key extends the raw prefix bytes. -/
def forwardCursorPrefix (b : Bucket) (pfx : Bytes) : Cursor :=
  ⟨b.filter (fun e => pfx.isPrefixOf e.1), none, none⟩

/-- Modelled from the spec: a read or write transaction exposes the named
collections of the store. -/
structure TxM where
  buckets : List (Bytes × Bucket)
deriving DecidableEq, Repr

/-- Modelled from the spec: `tx.Bucket(name)` yields the named collection
or fails with a not-found error when it was never created. -/
def txBucket (tx : TxM) (name : Bytes) : Except Err Bucket :=
  match bucketGetAssoc tx.buckets name with
  | some b => .ok b
  | none => .error (.bucketNotFound name)
where
  bucketGetAssoc : List (Bytes × Bucket) → Bytes → Option Bucket
    | [], _ => none
    | (k, b) :: rest, key => if k = key then some b else bucketGetAssoc rest key

/-- Replace the contents of the named collection inside a transaction
(no-op if the collection does not exist; callers check existence first). -/
def txSetBucket (tx : TxM) (name : Bytes) (b : Bucket) : TxM :=
  ⟨go tx.buckets⟩
where
  go : List (Bytes × Bucket) → List (Bytes × Bucket)
    | [] => []
    | (k, b0) :: rest => if k = name then (k, b) :: rest else (k, b0) :: go rest

/-- `Put` on a named collection within a transaction. -/
def txPut (tx : TxM) (name key val : Bytes) : TxM :=
  match txBucket tx name with
  | .error _ => tx
  | .ok b => txSetBucket tx name (bucketPut b key val)

/-- `Delete` on a named collection within a transaction. -/
def txDel (tx : TxM) (name key : Bytes) : TxM :=
  match txBucket tx name with
  | .error _ => tx
  | .ok b => txSetBucket tx name (bucketDel b key)

/-- `tx.Bucket` as a traced computation: it reads the store. -/
def getBucket (tx : TxM) (name : Bytes) : M σ Bucket := fun s =>
  (match txBucket tx name with
   | .ok b => .ok b
   | .error e => .error e, s, [Ev.openBucket name])

/-! ### Cross-reference join engine (`crossReference`) -/

/-- The per-row mapping function of `crossReference` (Go `mappingFunc`):
from a cursor row it derives the lookup key and a continuation which
receives the `Get` outcome (`some value`, or `none` for key-not-found). -/
abbrev MappingFn (σ : Type) := Bytes → Bytes → M σ (Bytes × (Option Bytes → M σ Unit))

/-- The loop body of `crossReference`: consume the cursor rows in order;
for each row run the mapping function (its error aborts), probe the
target bucket with the derived key, and hand the outcome to the
continuation (its error aborts); after exhaustion return `cursor.Err()`. -/
def crossRefLoop (bucket : Bucket) (fn : MappingFn σ) :
    List (Bytes × Bytes) → Option Err → M σ Unit
  | [], iterErr => fun s =>
    (match iterErr with
     | none => .ok ()
     | some e => .error e, s, [Ev.next])
  | (k, v) :: rest, iterErr => do
    emit .next
    let step ← fn k v
    emit (.get step.1)
    step.2 (bucketGet bucket step.1)
    crossRefLoop bucket fn rest iterErr

/-- `crossReference`: drive the cursor against the target bucket through
the mapping function, with the deferred close: the cursor is closed on
every exit path, and a close failure is surfaced only when the loop
itself (including `cursor.Err()`) succeeded. -/
def crossReference (cursor : Cursor) (bucket : Bucket) (fn : MappingFn σ) :
    M σ Unit := fun s =>
  match crossRefLoop bucket fn cursor.rows cursor.iterErr s with
  | (r, s1, ev) =>
    (match r, cursor.closeErr with
     | .ok _, some ce => .error ce
     | r, _ => r, s1, ev ++ [Ev.close])

/-- Visit callback of `Walk` (Go `VisitFunc`). -/
abbrev VisitFn (σ : Type) := Bytes → Bytes → M σ Unit

/-- Not-found callback (Go `notFoundFunc`). -/
abbrev NotFoundFn (σ : Type) := Bytes → Bytes → M σ Unit

/-- `indexWalk`: join index entries against the source bucket. Each index
row is `(indexKey, primaryKey)`; the source is probed at `primaryKey`; a
key-not-found outcome re-parses the composite key and calls `notFound`
with the recovered pair, a hit calls `visit` with the primary key and the
source value. -/
def indexWalk (indexCursor : Cursor) (sourceBucket : Bucket)
    (visit : VisitFn σ) (notFound : NotFoundFn σ) : M σ Unit :=
  crossReference indexCursor sourceBucket (fun ik primaryKey =>
    pure (primaryKey, fun sourceValue =>
      match sourceValue with
      | none =>
        match indexKeyParts ik with
        | .error e => throwE e
        | .ok (fk, pk) => notFound fk pk
      | some v => visit primaryKey v))

/-! ### The Index -/

/-- The `Index` value: its mapping (source and index collection names and
the foreign-key derivation function `IndexSourceOn`), the populate batch
size and the read-enablement flag. -/
structure IndexConf where
  sourceBucketName : Bytes
  indexBucketName : Bytes
  indexSourceOn : Bytes → Except Err Bytes
  populateBatchSize : Nat
  canRead : Bool

/-- The default populate batch size. -/
def defaultPopulateBatchSize : Nat := 100

/-- `WithIndexReadPathEnabled`: turn the read path on. -/
def WithIndexReadPathEnabled (i : IndexConf) : IndexConf :=
  { i with canRead := true }

/-- `WithPopulateBatchSize(n)`: set the batch size; the value is stored
unvalidated. -/
def WithPopulateBatchSize (n : Nat) (i : IndexConf) : IndexConf :=
  { i with populateBatchSize := n }

/-- `i.indexBucket(tx)`. -/
def IndexConf.idxBucket (i : IndexConf) (tx : TxM) : Except Err Bucket :=
  txBucket tx i.indexBucketName

/-- `i.sourceBucket(tx)`. -/
def IndexConf.srcBucket (i : IndexConf) (tx : TxM) : Except Err Bucket :=
  txBucket tx i.sourceBucketName

/-- `missingIndexWalk`: join source rows against the index bucket. For
each source row `(primaryKey, body)` derive the foreign key, build the
expected composite key and probe the index; a key-not-found outcome calls
`notFound` with the composite key and primary key, a hit does nothing. -/
def missingIndexWalk (i : IndexConf) (srcCursor : Cursor) (indexBucket : Bucket)
    (notFound : NotFoundFn σ) : M σ Unit :=
  crossReference srcCursor indexBucket (fun primaryKey body =>
    match i.indexSourceOn body with
    | .error e => throwE e
    | .ok foreignKey =>
      let ik := indexKey foreignKey primaryKey
      pure (ik, fun value =>
        match value with
        | none => notFound ik primaryKey
        | some _ => pure ()))

/-- `Insert(tx, foreignKey, primaryKey)`: build the composite key, open
the index bucket and put `compositeKey → primaryKey`; the updated
transaction replaces Go's in-place mutation. -/
def Insert (i : IndexConf) (tx : TxM) (foreignKey primaryKey : Bytes) :
    Except Err TxM :=
  let newKey := indexKey foreignKey primaryKey
  match i.idxBucket tx with
  | .error e => .error e
  | .ok _ => .ok (txPut tx i.indexBucketName newKey primaryKey)

/-- `Delete(tx, foreignKey, primaryKey)`: remove the composite key from
the index bucket; absence of the key is not an error. -/
def Delete (i : IndexConf) (tx : TxM) (foreignKey primaryKey : Bytes) :
    Except Err TxM :=
  let newKey := indexKey foreignKey primaryKey
  match i.idxBucket tx with
  | .error e => .error e
  | .ok _ => .ok (txDel tx i.indexBucketName newKey)

/-- `Walk(tx, foreignKey, visitFn)`: return nil immediately while the
read path is disabled; otherwise open both buckets, open a forward
cursor over the index restricted to the raw foreign-key prefix, and run
`indexWalk`, failing the whole walk with a wrapped key-not-found error
naming the offending pair when an index entry points at a missing source
record. -/
def Walk (i : IndexConf) (tx : TxM) (foreignKey : Bytes) (visitFn : VisitFn σ) :
    M σ Unit :=
  if !i.canRead then pure ()
  else do
    let sourceBucket ← getBucket tx i.sourceBucketName
    let indexBucket ← getBucket tx i.indexBucketName
    let cursor := forwardCursorPrefix indexBucket foreignKey
    indexWalk cursor sourceBucket visitFn
      (fun fk pk => throwE (.notFoundWrapped pk fk))

/-! ### Verify and IndexDiff -/

/-- Append `pk` to the list held under `fk`, creating the entry when the
key is new (Go's `map[string][]string` with `append`; represented as an
association list in first-insertion order). -/
def diffAppend : List (Bytes × List Bytes) → Bytes → Bytes → List (Bytes × List Bytes)
  | [], fk, pk => [(fk, [pk])]
  | (k, ps) :: rest, fk, pk =>
    if k = fk then (k, ps ++ [pk]) :: rest
    else (k, ps) :: diffAppend rest fk pk

/-- `IndexDiff`: the three divergence mappings produced by `Verify`. -/
structure IndexDiff where
  PresentInIndex : List (Bytes × List Bytes) := []
  MissingFromIndex : List (Bytes × List Bytes) := []
  MissingFromSource : List (Bytes × List Bytes) := []
deriving DecidableEq, Repr

/-- `diff.addToPresent(fk, pk)`. -/
def IndexDiff.addToPresent (d : IndexDiff) (fk pk : Bytes) : IndexDiff :=
  { d with PresentInIndex := diffAppend d.PresentInIndex fk pk }

/-- `diff.addMissingSource(fk, pk)`. -/
def IndexDiff.addMissingSource (d : IndexDiff) (fk pk : Bytes) : IndexDiff :=
  { d with MissingFromSource := diffAppend d.MissingFromSource fk pk }

/-- `diff.addMissingIndex(fk, pk)`. -/
def IndexDiff.addMissingIndex (d : IndexDiff) (fk pk : Bytes) : IndexDiff :=
  { d with MissingFromIndex := diffAppend d.MissingFromIndex fk pk }

/-- `diff.Corrupt()`: foreign keys appearing in both `MissingFromIndex`
and `PresentInIndex`. -/
def IndexDiff.Corrupt (d : IndexDiff) : List Bytes :=
  (d.MissingFromIndex.filter
    (fun e => d.PresentInIndex.any (fun p => p.1 = e.1))).map Prod.fst

/-- The empty diff (Go's zero value of `IndexDiff`). -/
def emptyDiff : IndexDiff := {}

/-- `Verify(ctx, tx)`: direction A joins the whole index against the
source through `indexWalk`, recording hits in `PresentInIndex` (via the
derivation function applied to the source value) and misses in
`MissingFromSource`; direction B joins the whole source against the index
through `missingIndexWalk`, recording misses in `MissingFromIndex` after
re-parsing the expected composite key.  The diff is the threaded state,
so — as with Go's named returns — whatever was accumulated before a
failure is what the caller receives next to the error. -/
def Verify (i : IndexConf) (tx : TxM) : M IndexDiff Unit := do
  let sourceBucket ← getBucket tx i.sourceBucketName
  let indexBucket ← getBucket tx i.indexBucketName
  let cursor := forwardCursorAll indexBucket
  indexWalk cursor sourceBucket
    (fun k v =>
      match i.indexSourceOn v with
      | .error e => throwE e
      | .ok fk => modifyS (fun d => d.addToPresent fk k))
    (fun fk pk => modifyS (fun d => d.addMissingSource fk pk))
  let cursor2 := forwardCursorAll sourceBucket
  missingIndexWalk i cursor2 indexBucket
    (fun ik _pk =>
      match indexKeyParts ik with
      | .error e => throwE e
      | .ok (fk, pk2) => modifyS (fun d => d.addMissingIndex fk pk2))

/-- Run `Verify` from the zero diff, returning Go's `(diff, err)` pair. -/
def runVerify (i : IndexConf) (tx : TxM) : Except Err Unit × IndexDiff :=
  match Verify i tx emptyDiff with
  | (r, d, _) => (r, d)

/-! ### Populate -/

/-- Modelled from the spec: a store is its committed transaction state
plus an injectable schedule of commit outcomes, one per `Update` call
(`none` = the commit succeeds, `some e` = the transaction's writes are
discarded and `Update` returns `e`); an exhausted schedule means all
further commits succeed. -/
structure StoreM where
  st : TxM
  commitErrs : List (Option Err) := []
deriving DecidableEq, Repr

/-- Phase 1 of `Populate`: inside one read transaction, walk the whole
source with `missingIndexWalk`, appending each missing
`(compositeKey, primaryKey)` pair to the closure-captured list. -/
def populatePhase1 (i : IndexConf) (tx : TxM) :
    Except Err Unit × List (Bytes × Bytes) × List Ev :=
  (do
    let sourceBucket ← getBucket tx i.sourceBucketName
    let cursor := forwardCursorAll sourceBucket
    let indexBucket ← getBucket tx i.indexBucketName
    missingIndexWalk i cursor indexBucket
      (fun fk pk => modifyS (fun l => l ++ [(fk, pk)]))
    : M (List (Bytes × Bytes)) Unit) []

/-- The batch body of a phase-2 write transaction: put every
`(compositeKey, primaryKey)` pair of the batch into the named bucket. -/
def putPairs (tx : TxM) (name : Bytes) (pairs : List (Bytes × Bytes)) : TxM :=
  pairs.foldl (fun tx pair => txPut tx name pair.1 pair.2) tx

/-- One `store.Update` of phase 2: open the index bucket, put every pair
of the batch, and count each put in `n` — `n` is captured from outside
the closure, so its increments survive even a commit that fails and
discards the writes.  The head of the commit schedule decides the
commit outcome. -/
def popStep (i : IndexConf) (store : StoreM) (batch : List (Bytes × Bytes))
    (n : Nat) : Except Err Unit × StoreM × Nat :=
  let ce := store.commitErrs.headD none
  let rest := store.commitErrs.tail
  match txBucket store.st i.indexBucketName with
  | .error e => (.error e, { store with commitErrs := rest }, n)
  | .ok _ =>
    let tx2 := putPairs store.st i.indexBucketName batch
    let n2 := n + batch.length
    match ce with
    | some e => (.error e, { store with commitErrs := rest }, n2)
    | none => (.ok (), { st := tx2, commitErrs := rest }, n2)

/-- Result of the phase-2 loop: either the loop exited (with `Populate`'s
error and count), or the supplied fuel ran out with the loop condition
still true — the marker a diverging loop (batch size zero) hits. -/
inductive PopRes where
  | done (err : Option Err) (store : StoreM) (n : Nat)
  | fuelOut (store : StoreM) (n : Nat)
deriving DecidableEq, Repr

/-- Phase 2 of `Populate`: `for len(missing) > 0`, split off a batch of at
most `populateBatchSize` pairs and apply it in its own write transaction;
a failing transaction returns immediately with the error and the partial
count.  The Go loop has no bound of its own; the explicit `fuel` only
caps how many iterations the model unrolls. -/
def populateLoop (i : IndexConf) :
    Nat → List (Bytes × Bytes) → StoreM → Nat → PopRes
  | _, [], store, n => .done none store n
  | 0, _ :: _, store, n => .fuelOut store n
  | fuel + 1, missing@(_ :: _), store, n =>
    let e := min i.populateBatchSize missing.length
    let batch := missing.take e
    let rest := missing.drop e
    match popStep i store batch n with
    | (.error err, store2, n2) => .done (some err) store2 n2
    | (.ok _, store2, n2) => populateLoop i fuel rest store2 n2

/-- `Populate(ctx, store)`: collect the missing pairs in one read
snapshot, then insert them batch by batch; `missing.length` fuel always
suffices when the batch size is positive. -/
def Populate (i : IndexConf) (store : StoreM) : PopRes :=
  match populatePhase1 i store.st with
  | (.error e, _, _) => .done (some e) store 0
  | (.ok _, missing, _) => populateLoop i missing.length missing store 0

/-- The count a `PopRes` carries. -/
def PopRes.count : PopRes → Nat
  | .done _ _ n => n
  | .fuelOut _ n => n

/-- The error a `PopRes` carries. -/
def PopRes.err : PopRes → Option Err
  | .done e _ _ => e
  | .fuelOut _ _ => none

/-- The store a `PopRes` carries. -/
def PopRes.store : PopRes → StoreM
  | .done _ s _ => s
  | .fuelOut s _ => s

/-! ### Helper lemmas -/

/-- Splitting `fk ++ '/' ++ pk` at the first separator recovers `(fk, pk)`
when `fk` holds no separator byte. -/
theorem splitN2_indexKey (fk pk : Bytes) (h : sep ∉ fk) :
    splitN2 (indexKey fk pk) = some (fk, pk) := by
  induction fk with
  | nil => simp [indexKey, splitN2]
  | cons b rest ih =>
    have hb : b ≠ sep := fun hb => h (hb ▸ List.mem_cons_self b rest)
    have hrest : sep ∉ rest := fun hr => h (List.mem_cons_of_mem _ hr)
    have := ih hrest
    simp only [indexKey] at this ⊢
    simp [splitN2, hb, this]

/-! ### C1 -/

/-- C1: for every foreign key free of the separator byte and every
primary key, `indexKeyParts` inverts `indexKey`: parsing the composite
key recovers the original pair with no error. -/
theorem indexKey_roundtrip (fk pk : Bytes) (h : sep ∉ fk) :
    indexKeyParts (indexKey fk pk) = .ok (fk, pk) := by
  unfold indexKeyParts
  rw [splitN2_indexKey fk pk h]

/-- C1 witness: the round trip evaluated at a concrete pair. -/
theorem indexKey_roundtrip_witness :
    sep ∉ ([117, 49] : Bytes) ∧
      indexKeyParts (indexKey [117, 49] [200]) = .ok ([117, 49], [200]) :=
  ⟨by decide, indexKey_roundtrip [117, 49] [200] (by decide)⟩

/-! ### C3 -/

/-- C3: while `canRead` is false, `Walk` returns nil, leaves the caller's
state untouched, records no store access at all (so it reads neither the
index nor the source collection) and never invokes the visit function —
for every transaction, foreign key and visitor. -/
theorem walk_read_gated (σ : Type) (i : IndexConf) (tx : TxM) (fk : Bytes)
    (visit : VisitFn σ) (s : σ) (h : i.canRead = false) :
    Walk i tx fk visit s = (.ok (), s, []) := by
  simp only [Walk, h]
  rfl

/-- C3 witness: the gated walk evaluated at a concrete index, transaction
and visitor. -/
theorem walk_read_gated_witness :
    (⟨[1], [2], fun v => .ok v, 100, false⟩ : IndexConf).canRead = false ∧
      Walk ⟨[1], [2], fun v => .ok v, 100, false⟩ ⟨[([1], [([5], [6])])]⟩ [9]
        (fun k v => modifyS (fun l => l ++ [(k, v)]))
        ([] : List (Bytes × Bytes)) = (.ok (), [], []) :=
  ⟨rfl, walk_read_gated _ _ _ _ _ _ rfl⟩

/-! ### Concrete scenarios -/

/-- Derivation reading the foreign key directly from the stored value
(the record's value is its user field). -/
def deriveId : Bytes → Except Err Bytes := fun v => .ok v

/-- The backfill scenario of C5: a source collection holding
`a1 ↦ u1, a2 ↦ u1, a3 ↦ u2` (`a1 = [101]`, `a2 = [102]`, `a3 = [103]`,
`u1 = [10]`, `u2 = [20]`) and an empty index collection. -/
def c5Conf : IndexConf := ⟨[1], [2], deriveId, defaultPopulateBatchSize, false⟩

/-- The C5 store: three source records, empty index, no injected commit
failures. -/
def c5Store : StoreM :=
  ⟨⟨[([1], [([101], [10]), ([102], [10]), ([103], [20])]), ([2], [])]⟩, []⟩

/-- A visitor collecting the `(primaryKey, sourceValue)` pairs it is
invoked with. -/
def collectVisits : VisitFn (List (Bytes × Bytes)) :=
  fun k v => modifyS (fun l => l ++ [(k, v)])

/-! ### C5 -/

/-- C5: `Populate` against the empty index inserts all three entries
(count 3, nil error); an immediate second `Populate` finds nothing
missing and returns count 0 with nil error. -/
theorem populate_backfill_counts :
    (Populate c5Conf c5Store).err = none ∧
      (Populate c5Conf c5Store).count = 3 ∧
      (Populate c5Conf (Populate c5Conf c5Store).store).err = none ∧
      (Populate c5Conf (Populate c5Conf c5Store).store).count = 0 :=
  ⟨rfl, rfl, rfl, rfl⟩

/-! ### C10 -/

/-- The foreign key `"u1"`. -/
def c10fk1 : Bytes := [117, 49]

/-- The foreign key `"u11"`, a strict byte-extension of `"u1"`. -/
def c10fk2 : Bytes := [117, 49, 49]

/-- The primary key stored under `"u11"`. -/
def c10pk : Bytes := [200]

/-- A read-enabled index over the C10 collections. -/
def c10Conf : IndexConf := ⟨[1], [2], deriveId, 100, true⟩

/-- The C10 transaction: the source holds `c10pk ↦ [5]` and the index
holds exactly one entry, for `(c10fk2, c10pk)`. -/
def c10Tx : TxM := ⟨[([1], [(c10pk, [5])]), ([2], [(indexKey c10fk2 c10pk, c10pk)])]⟩

/-- C10: walking the distinct, strictly shorter foreign key `"u1"` visits
the entry stored under `"u11"`: the cursor's prefix filter uses the raw
foreign-key bytes without the separator, so the `"u11"` entry falls
inside the scanned range and `visit` receives its primary key and source
value. -/
theorem walk_prefix_without_separator_leaks :
    c10fk1 ≠ c10fk2 ∧
      c10fk1.isPrefixOf c10fk2 = true ∧
      Walk c10Conf c10Tx c10fk1 collectVisits [] =
        (.ok (), [(c10pk, [5])],
          [.openBucket [1], .openBucket [2], .next, .get c10pk, .next, .close]) := by
  refine ⟨by decide, by decide, ?_⟩
  rfl

/-! ### C2 -/

/-- Unfolding lemma for the monadic bind of `M`. -/
theorem bind_apply (x : M σ α) (f : α → M σ β) (s : σ) :
    (x >>= f) s =
      match x s with
      | (.error e, s1, ev) => (.error e, s1, ev)
      | (.ok a, s1, ev) =>
        match f a s1 with
        | (r, s2, ev2) => (r, s2, ev ++ ev2) := rfl

/-- The C2 index: the derivation function rejects the source value `[99]`
and returns the value itself as foreign key otherwise. -/
def c2Conf : IndexConf :=
  ⟨[1], [2], fun v => if v = [99] then .error (.derivation 0) else .ok v, 100, true⟩

/-- The C2 transaction: two source records (`[101] ↦ [10]`,
`[102] ↦ [99]`) and their two well-formed index entries; the second
record's value makes the derivation fail during Verify's first
direction, after the first record was already recorded as present. -/
def c2Tx : TxM :=
  ⟨[([1], [([101], [10]), ([102], [99])]),
    ([2], [(indexKey [10] [101], [101]), (indexKey [99] [102], [102])])]⟩

/-- C2 counterexample: `Verify` returns a non-nil error (the derivation
failure) together with a diff that is NOT empty — `PresentInIndex`
already holds the entry processed before the failure, because the diff
is accumulated in place and returned as-is by the named returns. -/
theorem verify_error_nonempty_diff_cex :
    (runVerify c2Conf c2Tx).1 = .error (.derivation 0) ∧
      (runVerify c2Conf c2Tx).2.PresentInIndex = [([10], [[101]])] ∧
      (runVerify c2Conf c2Tx).2 ≠ emptyDiff := by
  refine ⟨rfl, rfl, ?_⟩
  decide

/-- C2 amended: when `Verify` fails while opening either collection —
before any entry is processed — the returned diff is empty; an error
arising later in the reconciliation is returned together with whatever
entries were accumulated before the failure (possibly a non-empty diff,
as the counterexample shows). -/
theorem verify_access_failure_empty_diff (i : IndexConf) (tx : TxM) (e : Err)
    (h : txBucket tx i.sourceBucketName = .error e ∨
      (∃ b, txBucket tx i.sourceBucketName = .ok b) ∧
        txBucket tx i.indexBucketName = .error e) :
    runVerify i tx = (.error e, emptyDiff) := by
  rcases h with h1 | ⟨⟨b, hb⟩, h2⟩
  · unfold runVerify Verify
    rw [bind_apply]
    simp [getBucket, h1]
  · unfold runVerify Verify
    rw [bind_apply]
    simp [getBucket, hb, h2]

/-- C2 witness for the amended theorem: a transaction missing the index
collection makes `Verify` fail with an empty diff. -/
theorem verify_access_failure_empty_diff_witness :
    runVerify c2Conf ⟨[([1], [])]⟩ = (.error (.bucketNotFound [2]), emptyDiff) :=
  verify_access_failure_empty_diff c2Conf ⟨[([1], [])]⟩ (.bucketNotFound [2])
    (.inr ⟨⟨[], rfl⟩, rfl⟩)

/-! ### Bucket-order lemmas (for C8) -/

/-- Number of entries a bucket holds under a given key. -/
def countKey (b : Bucket) (k : Bytes) : Nat :=
  (b.filter (fun e => e.1 = k)).length

/-- The store invariant: a bucket's entries are in strictly ascending key
order (what the sorted key space of a kv store guarantees). -/
def keysSorted (b : Bucket) : Prop :=
  b.Pairwise (fun x y => bytesLt x.1 y.1 = true)

/-- `bytesLt` is irreflexive. -/
theorem bytesLt_irrefl (a : Bytes) : bytesLt a a = false := by
  induction a with
  | nil => rfl
  | cons x xs ih => simp [bytesLt, ih]

/-- `bytesLt` distinguishes its arguments. -/
theorem bytesLt_ne {a b : Bytes} (h : bytesLt a b = true) : a ≠ b := by
  intro he
  rw [he, bytesLt_irrefl] at h
  exact Bool.false_ne_true h

/-- `bytesLt` is transitive. -/
theorem bytesLt_trans :
    ∀ {a b c : Bytes}, bytesLt a b = true → bytesLt b c = true → bytesLt a c = true
  | [], _ :: _, _ :: _, _, _ => rfl
  | x :: xs, y :: ys, z :: zs, hab, hbc => by
    simp only [bytesLt] at hab hbc ⊢
    by_cases h1 : x < y
    case pos =>
      by_cases h2 : y < z
      case pos => simp [Nat.lt_trans h1 h2]
      case neg =>
        rw [if_neg h2] at hbc
        by_cases h3 : z < y
        case pos => rw [if_pos h3] at hbc; exact absurd hbc (by decide)
        case neg =>
          have hyz : y = z := by omega
          subst hyz
          simp [h1]
    case neg =>
      rw [if_neg h1] at hab
      by_cases h4 : y < x
      case pos => rw [if_pos h4] at hab; exact absurd hab (by decide)
      case neg =>
        rw [if_neg h4] at hab
        have hxy : x = y := by omega
        subst hxy
        by_cases h2 : x < z
        case pos => simp [h2]
        case neg =>
          rw [if_neg h2] at hbc
          by_cases h3 : z < x
          case pos => rw [if_pos h3] at hbc; exact absurd hbc (by decide)
          case neg =>
            rw [if_neg h3] at hbc
            rw [if_neg h2, if_neg h3]
            exact bytesLt_trans hab hbc

/-- `bytesLt` is total on distinct sequences. -/
theorem bytesLt_total : ∀ a b : Bytes, a = b ∨ bytesLt a b = true ∨ bytesLt b a = true
  | [], [] => .inl rfl
  | [], _ :: _ => .inr (.inl rfl)
  | _ :: _, [] => .inr (.inr rfl)
  | x :: xs, y :: ys => by
    rcases Nat.lt_trichotomy x y with h | h | h
    · exact .inr (.inl (by simp [bytesLt, h]))
    · subst h
      rcases bytesLt_total xs ys with h | h | h
      · exact .inl (by rw [h])
      · exact .inr (.inl (by simp [bytesLt, h]))
      · exact .inr (.inr (by simp [bytesLt, h]))
    · exact .inr (.inr (by simp [bytesLt, h, Nat.lt_asymm h]))

/-- A key below every key of a bucket has no entry in it. -/
theorem countKey_eq_zero_of_lt (b : Bucket) (k : Bytes)
    (h : ∀ e ∈ b, bytesLt k e.1 = true) : countKey b k = 0 := by
  induction b with
  | nil => rfl
  | cons e rest ih =>
    have hne : ¬(e.1 = k) := fun he =>
      bytesLt_ne (h e (List.mem_cons_self e rest)) he.symm
    simp only [countKey, List.filter_cons, hne, decide_eq_true_eq, if_neg hne]
    exact ih (fun e' he' => h e' (List.mem_cons_of_mem _ he'))

/-- Every entry of `bucketPut b k v` is the new pair or an entry of `b`. -/
theorem mem_bucketPut {b : Bucket} {k v : Bytes} :
    ∀ {e}, e ∈ bucketPut b k v → e = (k, v) ∨ e ∈ b := by
  induction b with
  | nil => intro e he; simp [bucketPut] at he; exact .inl he
  | cons hd rest ih =>
    intro e he
    simp only [bucketPut] at he
    split_ifs at he with h1 h2
    · rcases List.mem_cons.mp he with h | h
      · exact .inl h
      · exact .inr (List.mem_cons_of_mem _ h)
    · rcases List.mem_cons.mp he with h | h
      · exact .inl h
      · exact .inr h
    · rcases List.mem_cons.mp he with h | h
      · exact .inr (h ▸ List.mem_cons_self hd rest)
      · rcases ih h with h' | h'
        · exact .inl h'
        · exact .inr (List.mem_cons_of_mem _ h')

/-- `Put` preserves the ascending-key invariant. -/
theorem keysSorted_bucketPut {b : Bucket} (k v : Bytes) (hs : keysSorted b) :
    keysSorted (bucketPut b k v) := by
  induction b with
  | nil => simp [bucketPut, keysSorted]
  | cons hd rest ih =>
    rw [keysSorted, List.pairwise_cons] at hs
    obtain ⟨hhd, hrest⟩ := hs
    simp only [bucketPut]
    split_ifs with h1 h2
    · rw [keysSorted, List.pairwise_cons]
      exact ⟨fun e he => by simpa [h1] using hhd e he, hrest⟩
    · rw [keysSorted, List.pairwise_cons]
      refine ⟨?_, List.pairwise_cons.mpr ⟨hhd, hrest⟩⟩
      intro e he
      rcases List.mem_cons.mp he with h | h
      · simpa [h] using h2
      · exact bytesLt_trans h2 (hhd e h)
    · rw [keysSorted, List.pairwise_cons]
      refine ⟨?_, ih hrest⟩
      intro e he
      rcases mem_bucketPut he with h | h
      · rcases bytesLt_total k hd.1 with ht | ht | ht
        · exact absurd ht.symm h1
        · exact absurd ht h2
        · simpa [h] using ht
      · exact hhd e h

/-- In a sorted bucket, `Put` leaves exactly one entry under the key. -/
theorem countKey_bucketPut (b : Bucket) (k v : Bytes) (hs : keysSorted b) :
    countKey (bucketPut b k v) k = 1 := by
  induction b with
  | nil => simp [bucketPut, countKey]
  | cons hd rest ih =>
    rw [keysSorted, List.pairwise_cons] at hs
    obtain ⟨hhd, hrest⟩ := hs
    simp only [bucketPut]
    split_ifs with h1 h2
    · have : countKey rest k = 0 :=
        countKey_eq_zero_of_lt rest k (fun e he => by simpa [h1] using hhd e he)
      simpa [countKey, List.filter_cons] using this
    · have : countKey (hd :: rest) k = 0 := by
        refine countKey_eq_zero_of_lt _ _ (fun e he => ?_)
        rcases List.mem_cons.mp he with h | h
        · simpa [h] using h2
        · exact bytesLt_trans h2 (hhd e h)
      simpa [countKey, List.filter_cons] using this
    · have hne : ¬(hd.1 = k) := fun he => h1 he
      simpa [countKey, List.filter_cons, hne] using ih hrest

/-- Lookup after `Put` finds the stored value. -/
theorem bucketGet_bucketPut (b : Bucket) (k v : Bytes) :
    bucketGet (bucketPut b k v) k = some v := by
  induction b with
  | nil => simp [bucketPut, bucketGet]
  | cons hd rest ih =>
    simp only [bucketPut]
    split_ifs with h1 h2
    · simp [bucketGet]
    · simp [bucketGet]
    · simp [bucketGet, h1, ih]

/-- Deleting an absent key leaves the bucket unchanged. -/
theorem bucketDel_absent (b : Bucket) (k : Bytes) (h : bucketGet b k = none) :
    bucketDel b k = b := by
  induction b with
  | nil => rfl
  | cons hd rest ih =>
    simp only [bucketGet] at h
    by_cases h1 : hd.1 = k
    · simp [h1] at h
    · simp only [h1, if_false] at h
      simp [bucketDel, h1, ih h]

/-- After replacing the named collection, the transaction yields the new
contents for that name. -/
theorem txBucket_txSetBucket (tx : TxM) (name : Bytes) (b0 b2 : Bucket)
    (h : txBucket tx name = .ok b0) :
    txBucket (txSetBucket tx name b2) name = .ok b2 := by
  obtain ⟨l⟩ := tx
  simp only [txBucket, txSetBucket] at h ⊢
  induction l with
  | nil => simp [txBucket.bucketGetAssoc] at h
  | cons hd rest ih =>
    simp only [txBucket.bucketGetAssoc, txSetBucket.go] at h ⊢
    by_cases h1 : hd.1 = name
    · simp [h1, txBucket.bucketGetAssoc]
    · simp only [h1, if_false] at h ⊢
      simp only [txBucket.bucketGetAssoc, h1, if_false]
      exact ih h

/-- Replacing the named collection by its own contents is the identity. -/
theorem txSetBucket_self (tx : TxM) (name : Bytes) (b0 : Bucket)
    (h : txBucket tx name = .ok b0) : txSetBucket tx name b0 = tx := by
  obtain ⟨l⟩ := tx
  simp only [txBucket] at h
  simp only [txSetBucket, TxM.mk.injEq]
  induction l with
  | nil => rfl
  | cons hd rest ih =>
    simp only [txBucket.bucketGetAssoc] at h
    simp only [txSetBucket.go]
    by_cases h1 : hd.1 = name
    · simp only [h1, if_true] at h ⊢
      obtain ⟨hk, hv⟩ := hd
      simp_all
    · simp only [h1, if_false] at h ⊢
      simp [ih h]

/-! ### C8 -/

/-- C8: inserting the same `(foreignKey, primaryKey)` pair twice leaves
exactly one index entry for its composite key (the second `Put`
overwrites the first), and `Delete` of a pair whose composite key was
never inserted succeeds and leaves the transaction unchanged — so the
index collection never holds two entries for one pair. -/
theorem insert_twice_once_delete_absent_noop (i : IndexConf) (tx : TxM)
    (fk pk : Bytes) (b : Bucket)
    (hb : txBucket tx i.indexBucketName = .ok b) (hs : keysSorted b) :
    (∃ tx2 b2,
      Insert i tx fk pk = .ok (txPut tx i.indexBucketName (indexKey fk pk) pk) ∧
      Insert i (txPut tx i.indexBucketName (indexKey fk pk) pk) fk pk = .ok tx2 ∧
      txBucket tx2 i.indexBucketName = .ok b2 ∧
      countKey b2 (indexKey fk pk) = 1 ∧
      bucketGet b2 (indexKey fk pk) = some pk) ∧
    (bucketGet b (indexKey fk pk) = none → Delete i tx fk pk = .ok tx) := by
  have hput1 : txPut tx i.indexBucketName (indexKey fk pk) pk =
      txSetBucket tx i.indexBucketName (bucketPut b (indexKey fk pk) pk) := by
    simp [txPut, hb]
  have hb1 : txBucket (txPut tx i.indexBucketName (indexKey fk pk) pk)
      i.indexBucketName = .ok (bucketPut b (indexKey fk pk) pk) := by
    rw [hput1]; exact txBucket_txSetBucket tx _ b _ hb
  constructor
  · refine ⟨txSetBucket (txPut tx i.indexBucketName (indexKey fk pk) pk)
      i.indexBucketName
      (bucketPut (bucketPut b (indexKey fk pk) pk) (indexKey fk pk) pk),
      bucketPut (bucketPut b (indexKey fk pk) pk) (indexKey fk pk) pk,
      ?_, ?_, ?_, ?_, ?_⟩
    · simp [Insert, IndexConf.idxBucket, hb]
    · have hb1' : txBucket
          (txSetBucket tx i.indexBucketName (bucketPut b (indexKey fk pk) pk))
          i.indexBucketName = .ok (bucketPut b (indexKey fk pk) pk) := by
        rw [← hput1]; exact hb1
      simp [Insert, IndexConf.idxBucket, txPut, hb, hb1, hb1']
    · exact txBucket_txSetBucket _ _ _ _ hb1
    · exact countKey_bucketPut _ _ _ (keysSorted_bucketPut _ _ hs)
    · exact bucketGet_bucketPut _ _ _
  · intro habs
    simp [Delete, IndexConf.idxBucket, hb, txDel, bucketDel_absent b _ habs,
      txSetBucket_self tx _ b hb]

/-- C8 witness: the double insert and the absent delete evaluated on a
concrete transaction with an empty, trivially sorted index bucket. -/
theorem insert_twice_once_delete_absent_noop_witness :
    ((∃ tx2 b2,
      Insert ⟨[1], [2], deriveId, 100, false⟩ ⟨[([2], [])]⟩ [7] [8] =
        .ok (txPut ⟨[([2], [])]⟩ [2] (indexKey [7] [8]) [8]) ∧
      Insert ⟨[1], [2], deriveId, 100, false⟩
          (txPut ⟨[([2], [])]⟩ [2] (indexKey [7] [8]) [8]) [7] [8] = .ok tx2 ∧
      txBucket tx2 [2] = .ok b2 ∧
      countKey b2 (indexKey [7] [8]) = 1 ∧
      bucketGet b2 (indexKey [7] [8]) = some [8]) ∧
    (bucketGet [] (indexKey [7] [8]) = none →
      Delete ⟨[1], [2], deriveId, 100, false⟩ ⟨[([2], [])]⟩ [7] [8] =
        .ok ⟨[([2], [])]⟩)) :=
  insert_twice_once_delete_absent_noop ⟨[1], [2], deriveId, 100, false⟩
    ⟨[([2], [])]⟩ [7] [8] [] rfl (by simp [keysSorted])

/-! ### C7 -/

/-- Number of cursor-close events in a trace. -/
def closeCount (ev : List Ev) : Nat :=
  (ev.filter (fun e => e = Ev.close)).length

/-- A mapping function that never closes a cursor itself (true of every
mapping function in `index.go`: they only derive keys and dispatch to
continuations). -/
def closeFree (fn : MappingFn σ) : Prop :=
  ∀ k v s, Ev.close ∉ (fn k v s).2.2 ∧
    ∀ step val s2, (fn k v s).1 = .ok step → Ev.close ∉ (step.2 val s2).2.2

/-- The loop of `crossReference` emits no close event of its own. -/
theorem crossRefLoop_no_close (bucket : Bucket) (fn : MappingFn σ)
    (hfree : closeFree fn) :
    ∀ rows iterErr s, Ev.close ∉ (crossRefLoop bucket fn rows iterErr s).2.2 := by
  intro rows
  induction rows with
  | nil => intro iterErr s; cases iterErr <;> simp [crossRefLoop]
  | cons row rest ih =>
    intro iterErr s
    obtain ⟨k, v⟩ := row
    rcases hfn : fn k v s with ⟨r1, s1, ev1⟩
    have h1 : Ev.close ∉ ev1 := by
      have := (hfree k v s).1
      rw [hfn] at this
      exact this
    rcases r1 with e1 | step
    · simp [crossRefLoop, bind_apply, emit, hfn, h1]
    · have h2 : ∀ val s2, Ev.close ∉ (step.2 val s2).2.2 := fun val s2 =>
        (hfree k v s).2 step val s2 (by rw [hfn])
      rcases hcont : step.2 (bucketGet bucket step.1) s1 with ⟨r2, s2, ev2⟩
      have h2' : Ev.close ∉ ev2 := by
        have := h2 (bucketGet bucket step.1) s1
        rw [hcont] at this
        exact this
      rcases r2 with e2 | u
      · simp [crossRefLoop, bind_apply, emit, hfn, hcont, h1, h2']
      · simp [crossRefLoop, bind_apply, emit, hfn, hcont, h1, h2', ih iterErr s2]

/-- A trace without close events has close count zero. -/
theorem closeCount_eq_zero {ev : List Ev} (h : Ev.close ∉ ev) :
    closeCount ev = 0 := by
  simp only [closeCount, List.length_eq_zero, List.filter_eq_nil_iff]
  intro a ha hc
  have ha' : a = Ev.close := of_decide_eq_true hc
  exact h (ha' ▸ ha)

/-- C7: on every exit path `crossReference` closes its cursor exactly
once (the trace holds exactly one close event, given a mapping function
that closes nothing itself); when the loop fails — mapping failure,
continuation failure or cursor iteration failure — its error is returned
even when `Close` also fails; and when the loop succeeds but `Close`
fails, the close error is returned. -/
theorem crossReference_close_once_error_priority (σ : Type) (cursor : Cursor)
    (bucket : Bucket) (fn : MappingFn σ) (s : σ) (hfree : closeFree fn) :
    closeCount (crossReference cursor bucket fn s).2.2 = 1 ∧
    (∀ e s1 ev,
      crossRefLoop bucket fn cursor.rows cursor.iterErr s = (.error e, s1, ev) →
      (crossReference cursor bucket fn s).1 = .error e) ∧
    (∀ u s1 ev ce,
      crossRefLoop bucket fn cursor.rows cursor.iterErr s = (.ok u, s1, ev) →
      cursor.closeErr = some ce →
      (crossReference cursor bucket fn s).1 = .error ce) := by
  refine ⟨?_, ?_, ?_⟩
  · rcases hloop : crossRefLoop bucket fn cursor.rows cursor.iterErr s
      with ⟨r, s1, ev⟩
    have hno : Ev.close ∉ ev := by
      have := crossRefLoop_no_close bucket fn hfree cursor.rows cursor.iterErr s
      rw [hloop] at this
      exact this
    have : (crossReference cursor bucket fn s).2.2 = ev ++ [Ev.close] := by
      simp [crossReference, hloop]
    rw [this]
    simp only [closeCount, List.filter_append, List.length_append]
    have h0 : (ev.filter (fun e => e = Ev.close)).length = 0 :=
      closeCount_eq_zero hno
    simp [h0]
  · intro e s1 ev hloop
    simp [crossReference, hloop]
  · intro u s1 ev ce hloop hce
    simp [crossReference, hloop, hce]

/-- The mapping function of the C7 witness: look the row key up and
ignore the outcome. -/
def c7Fn : MappingFn Unit := fun k _v => pure (k, fun _ => pure ())

/-- `c7Fn` emits no close event. -/
theorem c7Fn_closeFree : closeFree c7Fn := by
  intro k v s
  constructor
  · simp [c7Fn, pure]
  · intro step val s2 hstep
    simp only [c7Fn, pure] at hstep
    cases hstep
    simp [pure]

/-- C7 witness: on a one-row cursor whose `Close` fails and whose loop
succeeds, the engine closes exactly once and surfaces the close error. -/
theorem crossReference_close_once_error_priority_witness :
    closeCount (crossReference ⟨[([1], [2])], none, some (.closeFail 0)⟩
        [] c7Fn ()).2.2 = 1 ∧
      (crossReference ⟨[([1], [2])], none, some (.closeFail 0)⟩
        [] c7Fn ()).1 = .error (.closeFail 0) := by
  have h := crossReference_close_once_error_priority Unit
    ⟨[([1], [2])], none, some (.closeFail 0)⟩ [] c7Fn () c7Fn_closeFree
  exact ⟨h.1, h.2.2 () () [Ev.next, Ev.get [1], Ev.next] (.closeFail 0) rfl rfl⟩

/-! ### C9 -/

/-- Whether the phase-2 loop ran out of fuel (the marker a diverging
loop hits). -/
def PopRes.fuelExhausted : PopRes → Bool
  | .fuelOut _ _ => true
  | .done _ _ _ => false

/-- With a positive batch size, fuel at least the length of the missing
list always suffices: the loop exits on its own. -/
theorem populateLoop_done_of_fuel (i : IndexConf) (hbs : 1 ≤ i.populateBatchSize) :
    ∀ (fuel : Nat) (missing : List (Bytes × Bytes)) (store : StoreM) (n : Nat),
      missing.length ≤ fuel →
      (populateLoop i fuel missing store n).fuelExhausted = false := by
  intro fuel
  induction fuel with
  | zero =>
    intro missing store n hlen
    have : missing = [] := List.eq_nil_of_length_eq_zero (Nat.le_zero.mp hlen)
    subst this
    rfl
  | succ f ih =>
    intro missing store n hlen
    match missing with
    | [] => rfl
    | m :: ms =>
      simp only [populateLoop]
      rcases hstep : popStep i store ((m :: ms).take
          (min i.populateBatchSize (m :: ms).length)) n with ⟨r, store2, n2⟩
      rcases r with e | u
      · rfl
      · apply ih
        have h1 : 1 ≤ min i.populateBatchSize (m :: ms).length := by
          simp [Nat.le_min, hbs]
        have h2 := List.length_drop (min i.populateBatchSize (m :: ms).length)
          (m :: ms)
        simp only [List.length_cons] at hlen h2 ⊢
        omega

/-- C9: with a positive `populateBatchSize` the phase-2 batch loop of
`Populate` terminates — run with the fuel `Populate` supplies (the length
of the missing list) it always exits on its own; each iteration drops
`min(populateBatchSize, len(missing)) ≥ 1` entries, strictly shrinking
the list; and `WithPopulateBatchSize` stores any value, including zero,
without validating positivity. -/
theorem populate_batch_loop_terminates :
    (∀ (i : IndexConf) (missing : List (Bytes × Bytes)) (store : StoreM) (n : Nat),
      1 ≤ i.populateBatchSize →
      (populateLoop i missing.length missing store n).fuelExhausted = false) ∧
    (∀ (i : IndexConf) (missing : List (Bytes × Bytes)),
      missing ≠ [] → 1 ≤ i.populateBatchSize →
      (missing.drop (min i.populateBatchSize missing.length)).length <
        missing.length) ∧
    (∀ (n : Nat) (i : IndexConf), (WithPopulateBatchSize n i).populateBatchSize = n) := by
  refine ⟨?_, ?_, ?_⟩
  · intro i missing store n hbs
    exact populateLoop_done_of_fuel i hbs missing.length missing store n le_rfl
  · intro i missing hne hbs
    have hpos : 0 < missing.length := List.length_pos.mpr hne
    have h2 := List.length_drop (min i.populateBatchSize missing.length) missing
    have h1 : 1 ≤ min i.populateBatchSize missing.length := by
      simp [Nat.le_min, hbs]
      omega
    omega
  · intro n i
    rfl

/-- C9 witness: the loop facts evaluated at a singleton missing list and
the batch-size setter evaluated at zero. -/
theorem populate_batch_loop_terminates_witness :
    (populateLoop c5Conf ([(indexKey [7] [8], [8])] : List (Bytes × Bytes)).length
        [(indexKey [7] [8], [8])] c5Store 0).fuelExhausted = false ∧
      (([(indexKey [7] [8], [8])] : List (Bytes × Bytes)).drop
        (min c5Conf.populateBatchSize
          ([(indexKey [7] [8], [8])] : List (Bytes × Bytes)).length)).length <
        ([(indexKey [7] [8], [8])] : List (Bytes × Bytes)).length ∧
      (WithPopulateBatchSize 0 c5Conf).populateBatchSize = 0 :=
  ⟨populate_batch_loop_terminates.1 c5Conf _ c5Store 0 (by decide),
    populate_batch_loop_terminates.2.1 c5Conf _ (by decide) (by decide),
    populate_batch_loop_terminates.2.2 0 c5Conf⟩

/-! ### C6 -/

/-- `putPairs` over a concatenation is sequential application. -/
theorem putPairs_append (tx : TxM) (name : Bytes) (a b : List (Bytes × Bytes)) :
    putPairs tx name (a ++ b) = putPairs (putPairs tx name a) name b := by
  simp [putPairs, List.foldl_append]

/-- A `Put` never removes the named collection. -/
theorem txBucket_txPut_exists (tx : TxM) (name k v : Bytes) (b : Bucket)
    (h : txBucket tx name = .ok b) :
    txBucket (txPut tx name k v) name = .ok (bucketPut b k v) := by
  simp only [txPut, h]
  exact txBucket_txSetBucket tx name b _ h

/-- Batch application never removes the named collection. -/
theorem txBucket_putPairs_exists (name : Bytes) :
    ∀ (pairs : List (Bytes × Bytes)) (tx : TxM) (b : Bucket),
      txBucket tx name = .ok b →
      ∃ b2, txBucket (putPairs tx name pairs) name = .ok b2 := by
  intro pairs
  induction pairs with
  | nil => intro tx b h; exact ⟨b, h⟩
  | cons p ps ih =>
    intro tx b h
    have h1 := txBucket_txPut_exists tx name p.1 p.2 b h
    simpa [putPairs] using ih (txPut tx name p.1 p.2) _ h1

/-- The phase-2 loop under an injected commit failure at batch `k`: the
first `k` batches commit, batch `k`'s transaction is rolled back, the
loop stops with the injected error, and the returned count includes every
put executed so far — the committed batches plus the discarded puts of
batch `k`. -/
theorem populateLoop_commit_fail (i : IndexConf) (err : Err)
    (_hbs : 1 ≤ i.populateBatchSize) :
    ∀ (k : Nat) (missing : List (Bytes × Bytes)) (st : TxM) (b : Bucket)
      (ces : List (Option Err)) (n fuel : Nat),
      txBucket st i.indexBucketName = .ok b →
      k * i.populateBatchSize < missing.length →
      k < fuel →
      populateLoop i fuel missing
          ⟨st, List.replicate k none ++ some err :: ces⟩ n =
        .done (some err)
          ⟨putPairs st i.indexBucketName
            (missing.take (k * i.populateBatchSize)), ces⟩
          (n + min ((k + 1) * i.populateBatchSize) missing.length) := by
  intro k
  induction k with
  | zero =>
    intro missing st b ces n fuel hb hlen hfuel
    match missing, fuel with
    | m :: ms, fuel + 1 =>
      simp only [populateLoop, popStep, List.replicate, List.nil_append,
        List.headD_cons, List.tail_cons, hb]
      have hle : min i.populateBatchSize (m :: ms).length ≤ (m :: ms).length :=
        Nat.min_le_right _ _
      simp [putPairs, List.length_take, Nat.one_mul, Nat.min_assoc,
        Nat.min_self, Nat.min_comm (m :: ms).length]
  | succ k ih =>
    intro missing st b ces n fuel hb hlen hfuel
    match missing, fuel with
    | m :: ms, fuel + 1 =>
      have hlen' : (k + 1) * i.populateBatchSize < (m :: ms).length := hlen
      have hbslt : i.populateBatchSize < (m :: ms).length := by
        have : i.populateBatchSize ≤ (k + 1) * i.populateBatchSize := by
          calc i.populateBatchSize = 1 * i.populateBatchSize := (Nat.one_mul _).symm
            _ ≤ (k + 1) * i.populateBatchSize :=
              Nat.mul_le_mul_right _ (Nat.succ_le_succ (Nat.zero_le k))
        omega
      have hmin : min i.populateBatchSize (m :: ms).length = i.populateBatchSize :=
        Nat.min_eq_left (Nat.le_of_lt hbslt)
      simp only [populateLoop, popStep, List.replicate_succ, List.cons_append,
        List.headD_cons, List.tail_cons, hb, hmin]
      obtain ⟨b2, hb2⟩ := txBucket_putPairs_exists i.indexBucketName
        ((m :: ms).take i.populateBatchSize) st b hb
      have hdroplen : k * i.populateBatchSize <
          ((m :: ms).drop i.populateBatchSize).length := by
        rw [List.length_drop]
        have : (k + 1) * i.populateBatchSize =
            k * i.populateBatchSize + i.populateBatchSize := Nat.succ_mul k _
        omega
      rw [ih ((m :: ms).drop i.populateBatchSize)
        (putPairs st i.indexBucketName ((m :: ms).take i.populateBatchSize)) b2
        ces (n + ((m :: ms).take i.populateBatchSize).length) fuel hb2 hdroplen
        (Nat.lt_of_succ_lt_succ hfuel)]
      rw [← putPairs_append, ← List.take_add]
      have hcomb : i.populateBatchSize + k * i.populateBatchSize =
          (k + 1) * i.populateBatchSize := by
        rw [Nat.succ_mul]; omega
      rw [hcomb]
      have hcount : n + ((m :: ms).take i.populateBatchSize).length +
          min ((k + 1) * i.populateBatchSize)
            ((m :: ms).drop i.populateBatchSize).length =
          n + min ((k + 1 + 1) * i.populateBatchSize) (m :: ms).length := by
        rw [List.length_take, List.length_drop, hmin]
        have h1 : (k + 1) * i.populateBatchSize =
            k * i.populateBatchSize + i.populateBatchSize := Nat.succ_mul k _
        have h2 : (k + 1 + 1) * i.populateBatchSize =
            (k + 1) * i.populateBatchSize + i.populateBatchSize :=
          Nat.succ_mul (k + 1) _
        omega
      rw [hcount]

/-- C6: if the write transaction of batch `k` of the missing-list
partition fails, the loop returns immediately with that error and the
partial count; every batch before `k` remains committed in the store, no
entry of batch `k` or any later batch is in the store, and the remaining
batches are never attempted. -/
theorem populate_batch_failure_partial (i : IndexConf) (err : Err)
    (k : Nat) (missing : List (Bytes × Bytes)) (st : TxM) (b : Bucket)
    (ces : List (Option Err)) (fuel : Nat)
    (hbs : 1 ≤ i.populateBatchSize)
    (hb : txBucket st i.indexBucketName = .ok b)
    (hlen : k * i.populateBatchSize < missing.length)
    (hfuel : k < fuel) :
    populateLoop i fuel missing
        ⟨st, List.replicate k none ++ some err :: ces⟩ 0 =
      .done (some err)
        ⟨putPairs st i.indexBucketName
          (missing.take (k * i.populateBatchSize)), ces⟩
        (min ((k + 1) * i.populateBatchSize) missing.length) := by
  have h := populateLoop_commit_fail i err hbs k missing st b ces 0 fuel hb hlen hfuel
  simpa using h

/-- C6 witness: batch size 1, failure injected at the second batch
(`k = 1`) of three missing pairs — the first pair is committed, the
second batch's put is rolled back but counted, and the loop stops with
the injected error. -/
theorem populate_batch_failure_partial_witness :
    populateLoop ⟨[1], [2], deriveId, 1, false⟩ 3
        [([3], [4]), ([5], [6]), ([7], [8])]
        ⟨⟨[([2], [])]⟩, [none, some (.commitFail 9)]⟩ 0 =
      .done (some (.commitFail 9))
        ⟨putPairs ⟨[([2], [])]⟩ [2]
          ([([3], [4]), ([5], [6]), ([7], [8])].take 1), []⟩
        (min 2 3) :=
  populate_batch_failure_partial ⟨[1], [2], deriveId, 1, false⟩
    (.commitFail 9) 1 [([3], [4]), ([5], [6]), ([7], [8])]
    ⟨[([2], [])]⟩ [] [] 3 (by decide) rfl (by decide) (by decide)

/-! ### C4 -/

/-- Unfolding lemma for `pure` of `M`. -/
theorem pure_apply (a : α) (s : σ) : (pure a : M σ α) s = (.ok a, s, []) := rfl

/-- A well-formed index row, as written by `Insert`: its key is the
composite key of some separator-free foreign key and its stored value
(the primary key). -/
def rowWF (r : Bytes × Bytes) : Prop :=
  ∃ fk, sep ∉ fk ∧ r.1 = indexKey fk r.2

/-- Parsing a well-formed composite key. -/
theorem indexKeyParts_indexKey (fk pk : Bytes) (h : sep ∉ fk) :
    indexKeyParts (indexKey fk pk) = .ok (fk, pk) := by
  unfold indexKeyParts
  rw [splitN2_indexKey fk pk h]

/-- The loop of `Walk`'s `indexWalk` instantiation, on well-formed rows
and a visitor that never fails: if some row's stored primary key is
absent from the source, the loop stops with the wrapped key-not-found
error naming that row's recovered pair. -/
theorem crossRefLoop_dangling (σ : Type) (sb : Bucket) (visit : VisitFn σ)
    (hv : ∀ k v s', (visit k v s').1 = .ok ()) :
    ∀ (rows : List (Bytes × Bytes)) (s : σ),
      (∀ r ∈ rows, rowWF r) →
      (∃ r ∈ rows, bucketGet sb r.2 = none) →
      ∃ r ∈ rows, bucketGet sb r.2 = none ∧
        ∃ fk0, sep ∉ fk0 ∧ r.1 = indexKey fk0 r.2 ∧
          (crossRefLoop sb
            (fun ik primaryKey =>
              pure (primaryKey, fun sourceValue =>
                match sourceValue with
                | none =>
                  match indexKeyParts ik with
                  | .error e => throwE e
                  | .ok (fk, pk) => throwE (.notFoundWrapped pk fk)
                | some v => visit primaryKey v))
            rows none s).1 = .error (.notFoundWrapped r.2 fk0) := by
  intro rows
  induction rows with
  | nil =>
    intro s _ habs
    obtain ⟨r, hr, _⟩ := habs
    exact absurd hr (List.not_mem_nil r)
  | cons row rest ih =>
    intro s hwf habs
    obtain ⟨k0, v0⟩ := row
    by_cases hget : bucketGet sb v0 = none
    · obtain ⟨fk0, hsep, heq⟩ := hwf (k0, v0) (List.mem_cons_self _ _)
      refine ⟨(k0, v0), List.mem_cons_self _ _, hget, fk0, hsep, heq, ?_⟩
      have heq' : k0 = indexKey fk0 v0 := heq
      have hparts : indexKeyParts k0 = .ok (fk0, v0) := by
        rw [heq']; exact indexKeyParts_indexKey fk0 v0 hsep
      simp [crossRefLoop, bind_apply, pure_apply, emit, hget, hparts, throwE]
    · obtain ⟨val, hval⟩ := Option.ne_none_iff_exists'.mp hget
      obtain ⟨r, hr, hrabs⟩ := habs
      have hrrest : r ∈ rest := by
        rcases List.mem_cons.mp hr with h | h
        · rw [h] at hrabs
          exact absurd hrabs (by simp [hval])
        · exact h
      rcases hvis : visit v0 val s with ⟨rv, s2, ev2⟩
      have hrv : rv = .ok () := by
        have := hv v0 val s
        rw [hvis] at this
        exact this
      subst hrv
      obtain ⟨r2, hr2, habs2, fk0, hsep, heq, hloop⟩ :=
        ih s2 (fun r hr => hwf r (List.mem_cons_of_mem _ hr)) ⟨r, hrrest, hrabs⟩
      refine ⟨r2, List.mem_cons_of_mem _ hr2, habs2, fk0, hsep, heq, ?_⟩
      rcases hrest : crossRefLoop sb _ rest none s2 with ⟨r3, s3, ev3⟩
      rw [hrest] at hloop
      simp only at hloop
      simp [crossRefLoop, bind_apply, pure_apply, emit, hval, hvis, hrest, hloop]

/-- C4: with reads enabled, when the walked prefix range of the index
contains a well-formed entry whose stored primary key is absent from the
source collection (and the visitor itself never fails), `Walk` does not
silently skip it: it returns the error wrapping the key-not-found
failure that names the offending recovered (foreignKey, primaryKey)
pair. -/
theorem walk_fails_on_dangling_entry (σ : Type) (i : IndexConf) (tx : TxM)
    (fk : Bytes) (visit : VisitFn σ) (s : σ) (sb ib : Bucket)
    (hcr : i.canRead = true)
    (hsb : txBucket tx i.sourceBucketName = .ok sb)
    (hib : txBucket tx i.indexBucketName = .ok ib)
    (hwf : ∀ r ∈ (forwardCursorPrefix ib fk).rows, rowWF r)
    (hv : ∀ k v s', (visit k v s').1 = .ok ())
    (habs : ∃ r ∈ (forwardCursorPrefix ib fk).rows, bucketGet sb r.2 = none) :
    ∃ r ∈ (forwardCursorPrefix ib fk).rows, bucketGet sb r.2 = none ∧
      ∃ fk0, sep ∉ fk0 ∧ r.1 = indexKey fk0 r.2 ∧
        (Walk i tx fk visit s).1 = .error (.notFoundWrapped r.2 fk0) := by
  obtain ⟨r2, hr2, habs2, fk0, hsep, heq, hloop⟩ :=
    crossRefLoop_dangling σ sb visit hv (forwardCursorPrefix ib fk).rows s hwf habs
  refine ⟨r2, hr2, habs2, fk0, hsep, heq, ?_⟩
  rcases hrest : crossRefLoop sb
      (fun ik primaryKey =>
        pure (primaryKey, fun sourceValue =>
          match sourceValue with
          | none =>
            match indexKeyParts ik with
            | .error e => throwE e
            | .ok (fk, pk) => throwE (.notFoundWrapped pk fk)
          | some v => visit primaryKey v))
      (forwardCursorPrefix ib fk).rows none s
    with ⟨r3, s3, ev3⟩
  rw [hrest] at hloop
  simp only at hloop
  simp only [forwardCursorPrefix] at hrest
  simp [Walk, hcr, bind_apply, getBucket, hsb, hib, indexWalk, crossReference,
    forwardCursorPrefix, hrest, hloop]

/-- C4 witness: a read-enabled index whose single entry stores a primary
key missing from the source; `Walk` fails with the wrapped error naming
the pair. -/
theorem walk_fails_on_dangling_entry_witness :
    ∃ r ∈ (forwardCursorPrefix [(indexKey [3] [9], [9])] [3]).rows,
      bucketGet [] r.2 = none ∧
      ∃ fk0, sep ∉ fk0 ∧ r.1 = indexKey fk0 r.2 ∧
        (Walk ⟨[1], [2], deriveId, 100, true⟩
          ⟨[([1], []), ([2], [(indexKey [3] [9], [9])])]⟩ [3] collectVisits []).1 =
          .error (.notFoundWrapped r.2 fk0) :=
  walk_fails_on_dangling_entry (List (Bytes × Bytes))
    ⟨[1], [2], deriveId, 100, true⟩
    ⟨[([1], []), ([2], [(indexKey [3] [9], [9])])]⟩ [3] collectVisits [] [] _
    rfl rfl rfl
    (by intro r hr
        simp only [forwardCursorPrefix] at hr
        refine ⟨[3], by decide, ?_⟩
        have : r = (indexKey [3] [9], [9]) := by
          simpa using (List.mem_filter.mp hr).1
        rw [this])
    (fun k v s' => rfl)
    ⟨(indexKey [3] [9], [9]), by decide, rfl⟩

end KVIndex
